import Mathlib

/-!
Verification of `cardano-node-tests` governance-test helpers.

This file gives a shallow embedding in Lean 4 of the pure logic of
`cardano_node_tests/tests/tests_conway/conway_common.py` and
`cardano_node_tests/utils/helpers.py`, and proves (or refutes) the
specification claims about that logic.  External collaborators (the node
CLI, the faucet, the file system) are modelled as explicit inputs: each
embedded routine takes the results of its external queries as arguments
and returns its outputs, with Python exceptions modelled by `Except`.
-/

/-- Vote values of `clusterlib.Votes` (YES / NO / ABSTAIN). -/
inductive Votes where
  | YES : Votes
  | NO : Votes
  | ABSTAIN : Votes
deriving DecidableEq, Repr

/-- Embedding of `conway_common.get_yes_abstain_vote` (conway_common.py:79-85).
Python integers are modelled by `Int`; Python `%` with a positive modulus
agrees with `Int.emod`. -/
def get_yes_abstain_vote (idx : Int) : Votes :=
  if idx = 1 ∨ idx % 2 = 0 then Votes.YES
  else if idx % 3 = 0 then Votes.NO
  else Votes.ABSTAIN

/-- Embedding of `conway_common.get_no_abstain_vote` (conway_common.py:88-94). -/
def get_no_abstain_vote (idx : Int) : Votes :=
  if idx = 1 ∨ idx % 2 = 0 then Votes.NO
  else if idx % 3 = 0 then Votes.YES
  else Votes.ABSTAIN

/-- An entry of `gov_state["nextRatifyState"]["expiredGovActions"]`:
the fields `txId` and `govActionIx` read by `possible_rem_issue`. -/
structure RemovedAction where
  txId : String
  govActionIx : Int
deriving DecidableEq, Repr

/-- The `actionId` sub-record of a proposal: fields `txId` and `govActionIx`. -/
structure ActionId where
  txId : String
  govActionIx : Int
deriving DecidableEq, Repr

/-- An entry of `gov_state["proposals"]`: the fields `actionId` and
`expiresAfter` read by `possible_rem_issue`. -/
structure Proposal where
  actionId : ActionId
  expiresAfter : Int
deriving DecidableEq, Repr

/-- The slice of the governance-state JSON document consumed by
`possible_rem_issue`: `nextRatifyState.expiredGovActions` and `proposals`. -/
structure GovState where
  expiredGovActions : List RemovedAction
  proposals : List Proposal
deriving DecidableEq, Repr

/-- Embedding of `conway_common.possible_rem_issue` (conway_common.py:48-76).
The code returns `False` when the number of removed actions differs from 1 or
exactly one proposal remains; otherwise it scans `proposals` for an entry that
has already expired (`expiresAfter < epoch`) and whose `actionId` matches the
single removed action, returning `True` on the first hit. -/
def possible_rem_issue (gov_state : GovState) (epoch : Int) : Bool :=
  if gov_state.expiredGovActions.length ≠ 1 ∨ gov_state.proposals.length = 1 then
    false
  else
    match gov_state.expiredGovActions with
    | [] => false
    | removed0 :: _ =>
      gov_state.proposals.any fun p =>
        decide (p.expiresAfter < epoch) && (p.actionId.txId == removed0.txId)
          && (p.actionId.govActionIx == removed0.govActionIx)

/-- The condition claimed for `possible_rem_issue` by the specification,
written from the claim words: exactly one removed action, more than one
proposal remains, and NO still-open proposal has already expired while
matching the id of the single removed action. -/
def possible_rem_issue_claimed (gov_state : GovState) (epoch : Int) : Bool :=
  (gov_state.expiredGovActions.length == 1)
    && decide (1 < gov_state.proposals.length)
    && match gov_state.expiredGovActions with
       | [] => false
       | removed0 :: _ =>
         !(gov_state.proposals.any fun p =>
           decide (p.expiresAfter < epoch) && (p.actionId.txId == removed0.txId)
             && (p.actionId.govActionIx == removed0.govActionIx))

/-! ## Vote casting (`cast_vote`, conway_common.py:220-322) -/

/-- A single vote record: the data of one
`cluster_obj.g_conway_governance.vote.create_committee` /
`create_drep` / `create_spo` call made by `cast_vote`.  The `cat` and `idx`
fields model the `vote_name` argument (templates such as the name followed by
cc and the 1-based index `i`); `voter_key` models the verification-key file of
the enumerated participant. -/
structure VoteRec where
  cat : String
  idx : Nat
  vote : Votes
  voter_key : String
deriving DecidableEq, Repr

/-- The element expression of the comprehension in one category block of
`cast_vote`: `None` for a skipped participant (skip flag set and 1-based
index a multiple of 3), otherwise the created vote record whose vote comes
from `get_yes_abstain_vote` on approval and `get_no_abstain_vote` on
rejection. -/
def mk_vote_rec (cat : String) (ap : Bool) (skip_votes : Bool)
    (im : Nat × String) : Option VoteRec :=
  if skip_votes && im.1 % 3 == 0 then
    none
  else
    some { cat := cat, idx := im.1,
           vote := if ap then get_yes_abstain_vote (im.1 : Int)
                   else get_no_abstain_vote (im.1 : Int),
           voter_key := im.2 }

/-- One category block of `cast_vote`: the Python list comprehension
`[None if skip and i % 3 == 0 else create(... vote=yes_abstain(i) if approve
else no_abstain(i) ...) for i, m in enumerate(members, start=1)]`
(element expression `mk_vote_rec`) followed by the truthiness filter
`[v for v in _votes if v]` (vote records are always truthy, so the filter
drops exactly the `None` entries).  The three blocks for committee members,
DReps and stake pools are textually identical up to the member list and name
template, so they share this one embedding. -/
def build_cat_votes (cat : String) (approve : Option Bool) (skip_votes : Bool)
    (members : List String) : List VoteRec :=
  match approve with
  | none => []
  | some ap =>
    ((List.enumFrom 1 members).map (mk_vote_rec cat ap skip_votes)).filterMap id

/-- The participant lists of `governance_setup.DefaultGovernance` consumed by
`cast_vote`: committee members (hot keys), registered DReps, pool cold keys. -/
structure GovernanceData where
  cc_members : List String
  dreps_reg : List String
  pools_cold : List String
deriving Repr

/-- `governance_utils.VotedVotes`: the three ordered vote sequences returned
by `cast_vote`. -/
structure VotedVotes where
  cc : List VoteRec
  drep : List VoteRec
  spo : List VoteRec
deriving DecidableEq, Repr

/-- Result of the embedded `cast_vote`: the returned `VotedVotes` plus the
contents of the single `submit_vote` call (`votes_all`) and how many
transactions were submitted. -/
structure CastVoteOut where
  voted : VotedVotes
  submitted_votes : List VoteRec
  submitted_tx_count : Nat
deriving Repr

/-- Embedding of `conway_common.cast_vote` (conway_common.py:220-322): builds
the three per-category vote lists, concatenates them into `votes_all` and
passes them to exactly one `submit_vote` call. -/
def cast_vote (governance_data : GovernanceData)
    (approve_cc approve_drep approve_spo : Option Bool)
    (cc_skip_votes drep_skip_votes spo_skip_votes : Bool) : CastVoteOut :=
  let votes_cc := build_cat_votes "cc" approve_cc cc_skip_votes governance_data.cc_members
  let votes_drep := build_cat_votes "drep" approve_drep drep_skip_votes governance_data.dreps_reg
  let votes_spo := build_cat_votes "pool" approve_spo spo_skip_votes governance_data.pools_cold
  let votes_all := votes_cc ++ votes_drep ++ votes_spo
  { voted := { cc := votes_cc, drep := votes_drep, spo := votes_spo },
    submitted_votes := votes_all,
    submitted_tx_count := 1 }

/-! ## Governance-action proposals (conway_common.py:369-528) -/

/-- A UTxO entry as consumed by the balance assertions: an address and an
amount in lovelace. -/
structure Utxo where
  address : String
  amount : Int
deriving DecidableEq, Repr

/-- Model of the external `clusterlib.filter_utxos` helper restricted to its
use here: keep the UTxOs sitting at the given address, in order. -/
def filter_utxos (utxos : List Utxo) (address : String) : List Utxo :=
  utxos.filter fun u => u.address == address

/-- Model of the external `clusterlib.calculate_utxos_balance`: the sum of
the amounts. -/
def calculate_utxos_balance (utxos : List Utxo) : Int :=
  (utxos.map Utxo.amount).sum

/-- The fields of `clusterlib.TxRawOutput` consumed by the proposal
routines: the transaction inputs and the fee. -/
structure TxRawOutput where
  txins : List Utxo
  fee : Int
deriving Repr

/-- The addresses and key files of one `clusterlib.PoolUser` as consumed by
the proposal routines. -/
structure PoolUserAddrs where
  payment_address : String
  stake_vkey_file : String
  payment_skey_file : String
deriving DecidableEq, Repr

/-- The fields of a proposal record found by
`governance_utils.lookup_proposal`: the action tag, the action index and (for
parameter updates) the second component of the `govAction.contents` payload. -/
structure PropAction where
  tag : String
  action_ix : Int
  future_pparams : String
deriving DecidableEq, Repr

/-- Results of the external queries performed by the proposal routines, in
program order: the genesis deposit, the transaction produced by
`build_and_submit_tx`, the UTxOs re-queried for that transaction, the
transaction id computed from the body file, and the proposal record found in
the re-queried governance state (if any). -/
structure ProposeEnv where
  deposit_amt : Int
  tx_output : TxRawOutput
  out_utxos : List Utxo
  action_txid : String
  prop_action : Option PropAction
deriving Repr

/-- Embedding of `conway_common.propose_change_constitution`
(conway_common.py:369-445) from the submission onward: one proposal file is
built per pool user (modelled by the stake verification key embedded in it),
one transaction is submitted, and the first UTxO at the first pool user's
payment address must equal the inputs balance minus the fee minus the deposit
taken once; then the action is looked up and its tag checked.  Python
exceptions (IndexError on an empty list, AssertionError) are `Except.error`. -/
def propose_change_constitution (env : ProposeEnv) (pool_users : List PoolUserAddrs) :
    Except String (List String × String × Int) :=
  let deposit_amt := env.deposit_amt
  let constitution_actions := pool_users.map fun pool_user => pool_user.stake_vkey_file
  match pool_users with
  | [] => Except.error "list index out of range"
  | u0 :: _ =>
    match filter_utxos env.out_utxos u0.payment_address with
    | [] => Except.error "list index out of range"
    | o0 :: _ =>
      if o0.amount = calculate_utxos_balance env.tx_output.txins - env.tx_output.fee - deposit_amt then
        match env.prop_action with
        | none => Except.error "Create constitution action not found"
        | some prop_action =>
          if prop_action.tag = "NewConstitution" then
            Except.ok (constitution_actions, env.action_txid, prop_action.action_ix)
          else Except.error "Incorrect action tag"
      else Except.error "Incorrect balance for source address"

/-- `conway_common.PParamPropRec` (conway_common.py:20-26), with the proposal
list abstracted to the proposal names. -/
structure PParamPropRec where
  proposals : List String
  action_txid : String
  action_ix : Int
  proposal_names : List String
  future_pparams : String
deriving DecidableEq, Repr

/-- Embedding of `conway_common.propose_pparams_update`
(conway_common.py:448-528) from the submission onward, in the same shape as
`propose_change_constitution`: one proposal file per pool user, one
transaction, the first UTxO at the first pool user's payment address must
equal the inputs balance minus the fee minus the deposit taken once, then the
action is looked up, its tag checked against the parameter-change tag, and
the record assembled. -/
def propose_pparams_update (env : ProposeEnv) (pool_users : List PoolUserAddrs)
    (proposals : List String) : Except String PParamPropRec :=
  let deposit_amt := env.deposit_amt
  let pparams_actions := pool_users.map fun pool_user => pool_user.stake_vkey_file
  match pool_users with
  | [] => Except.error "list index out of range"
  | u0 :: _ =>
    let _ := pparams_actions
    match filter_utxos env.out_utxos u0.payment_address with
    | [] => Except.error "list index out of range"
    | o0 :: _ =>
      if o0.amount = calculate_utxos_balance env.tx_output.txins - env.tx_output.fee - deposit_amt then
        match env.prop_action with
        | none => Except.error "Param update action not found"
        | some prop_action =>
          if prop_action.tag = "ParameterChange" then
            Except.ok { proposals := proposals,
                        action_txid := env.action_txid,
                        action_ix := prop_action.action_ix,
                        proposal_names := proposals.dedup,
                        future_pparams := prop_action.future_pparams }
          else Except.error "Incorrect action tag"
      else Except.error "Incorrect balance for source address"

/-! ## Process execution (`helpers.run_command`, helpers.py:99-129) -/

/-- The outcome of the external process spawned by `run_command`: exit code
and captured standard output / standard error, already decoded. -/
structure ProcResult where
  returncode : Int
  stdout : String
  stderr : String
deriving DecidableEq, Repr

/-- The `cmd_str` computed at the top of `helpers.run_command`: the command
itself when given as a string, or the list joined with spaces. -/
def run_command_cmd_str : String ⊕ List String → String
  | Sum.inl s => s
  | Sum.inr l => String.intercalate " " l

/-- Embedding of `helpers.run_command` (helpers.py:99-129).  The command is
either a string or a list of strings (joined with spaces for the message);
the spawned process is an external collaborator whose outcome is the
`proc` argument.  On a non-zero exit code with `ignore_fail` unset the
routine raises an AssertionError whose message ends with the decoded standard
error, falling back to the decoded standard output when standard error is
empty (Python `err_dec or stdout.decode()`); otherwise it returns the
captured standard output. -/
def run_command (command : String ⊕ List String) (proc : ProcResult)
    (ignore_fail : Bool) : Except String String :=
  let cmd_str := run_command_cmd_str command
  if ignore_fail = false ∧ proc.returncode ≠ 0 then
    let err_dec := proc.stderr
    let err_dec := if err_dec = "" then proc.stdout else err_dec
    Except.error ("An error occurred while running " ++ cmd_str ++ ": " ++ err_dec)
  else
    Except.ok proc.stdout

/-! ## Committee value lookup (`get_committee_val`, conway_common.py:39-45) -/

/-- Python truthiness of an optional value: `None` is falsy, a present value
is as truthy as the value itself.  The value type is kept generic because the
source is dynamically typed (`Dict[str, Any]`); `truthy` is the Python
truth test of the value type. -/
def py_opt_truthy {α : Type} (truthy : α → Bool) : Option α → Bool
  | none => false
  | some v => truthy v

/-- Embedding of `conway_common.get_committee_val` (conway_common.py:39-45):
`data.get("committee") or data.get("commitee") or an empty dict`.  Python
`x or y` evaluates to `x` when `x` is truthy and to `y` otherwise; absent
keys give `None`, which is falsy.  `emptyDict` is the value of the literal
empty dict in the value type. -/
def get_committee_val {α : Type} (truthy : α → Bool) (emptyDict : α)
    (data : List (String × α)) : α :=
  if py_opt_truthy truthy (data.lookup "committee") then
    (data.lookup "committee").getD emptyDict
  else if py_opt_truthy truthy (data.lookup "commitee") then
    (data.lookup "commitee").getD emptyDict
  else
    emptyDict

/-- A concrete JSON-object value type for instantiating `get_committee_val`:
an association list of leaf values.  An empty dict is falsy in Python. -/
abbrev JDict : Type := List (String × Int)

/-- Python truthiness of a dict: nonempty. -/
def jdict_truthy (d : JDict) : Bool :=
  !(List.isEmpty d)

/-! ## Registered pool user with caching (conway_common.py:116-181) -/

/-- A created pool user, identified by the order of its creation (fresh key
pairs in the source). -/
structure PoolUserId where
  uid : Nat
deriving DecidableEq, Repr

/-- The observable state threaded through `get_registered_pool_user`: the
fixture cache of `cluster_manager` (keyed by the caller-supplied string), a
counter of created key pairs, and counters / records of the external side
effects (faucet funding calls, generated registration certificates, submitted
transactions, registered stake addresses). -/
structure World where
  cache : List (String × List PoolUserId)
  user_counter : Nat
  funding_txs : Nat
  reg_certs : Nat
  submitted_txs : Nat
  registered : List Nat
deriving DecidableEq, Repr

/-- Model of `clusterlib_utils.create_pool_users`: `n` fresh pool users. -/
def create_pool_users (n : Nat) (counter : Nat) : List PoolUserId :=
  (List.range n).map fun i => { uid := counter + i }

/-- The part of `get_registered_pool_user` after the pool users exist
(conway_common.py:144-181): fund each user from the faucet, generate one
stake-registration certificate per user, submit them in one transaction whose
source address is the first user's payment address (an IndexError on an empty
list), and record every stake address as registered. -/
def fund_and_register (pool_users : List PoolUserId) (w : World) :
    Except String (List PoolUserId × World) :=
  let w1 := { w with funding_txs := w.funding_txs + pool_users.length }
  let w2 := { w1 with reg_certs := w1.reg_certs + pool_users.length }
  match pool_users with
  | [] => Except.error "list index out of range"
  | _ :: _ =>
    let w3 := { w2 with submitted_txs := w2.submitted_txs + 1,
                        registered := w2.registered ++ pool_users.map PoolUserId.uid }
    Except.ok (pool_users, w3)

/-- Embedding of `conway_common.get_registered_pool_user`
(conway_common.py:116-181).  With a non-empty caching key, a truthy cached
value is returned immediately (no further side effects); otherwise fresh
users are created, stored in the cache, and then funded and registered.
Python truthiness of the cached list is nonemptiness (`None` or an empty
list both fall through to creation). -/
def get_registered_pool_user (caching_key : String) (no_of_users : Nat)
    (w : World) : Except String (List PoolUserId × World) :=
  if caching_key ≠ "" then
    match w.cache.lookup caching_key with
    | some cached =>
      if !(List.isEmpty cached) then
        Except.ok (cached, w)
      else
        let pool_users := create_pool_users no_of_users w.user_counter
        let w1 := { w with user_counter := w.user_counter + no_of_users,
                           cache := (caching_key, pool_users) :: w.cache }
        fund_and_register pool_users w1
    | none =>
      let pool_users := create_pool_users no_of_users w.user_counter
      let w1 := { w with user_counter := w.user_counter + no_of_users,
                         cache := (caching_key, pool_users) :: w.cache }
      fund_and_register pool_users w1
  else
    let pool_users := create_pool_users no_of_users w.user_counter
    let w1 := { w with user_counter := w.user_counter + no_of_users }
    fund_and_register pool_users w1

/-! ## Environment / CWD scoping (`helpers.environ`, `helpers.change_cwd`) -/

/-- A process environment: an association list from variable names to
values (first binding wins on lookup, as a map). -/
abbrev EnvMap : Type := List (String × String)

/-- `os.environ[k] = v`: replace every binding of `k`, or append a fresh
binding when `k` is absent. -/
def env_set (e : EnvMap) (k v : String) : EnvMap :=
  if e.any (fun kv => kv.1 == k) then
    e.map fun kv => if kv.1 == k then (k, v) else kv
  else
    e ++ [(k, v)]

/-- `del os.environ[k]`: remove the binding, or raise KeyError (`none`) when
`k` is absent. -/
def env_del (e : EnvMap) (k : String) : Option EnvMap :=
  if e.any (fun kv => kv.1 == k) then
    some (e.filter fun kv => kv.1 ≠ k)
  else
    none

/-- `os.environ.update(env)`: set each binding of `env` in order. -/
def env_update (e : EnvMap) (env : List (String × String)) : EnvMap :=
  env.foldl (fun acc kv => env_set acc kv.1 kv.2) e

/-- The restoration loop in the `finally` block of `helpers.environ`
(helpers.py:92-96): for each saved `(key, value)` in order, delete the
variable when the saved value is `None`, else set it back.  A KeyError from
the delete aborts the loop (second component `true`), leaving the remaining
variables unrestored. -/
def restore_env : List (String × Option String) → EnvMap → EnvMap × Bool
  | [], e => (e, false)
  | (k, none) :: rest, e =>
    match env_del e k with
    | none => (e, true)
    | some e1 => restore_env rest e1
  | (k, some v) :: rest, e => restore_env rest (env_set e k v)

/-- Embedding of the `helpers.environ` context manager (helpers.py:84-96)
around an arbitrary body.  The body receives the updated environment and
returns the environment as it leaves it together with a flag telling whether
it raised; the `finally` block then runs the restoration loop either way.
The result is the final environment and whether an exception (from the body
or from the restoration itself) propagates out. -/
def environ (env : List (String × String)) (body : EnvMap → EnvMap × Bool)
    (e0 : EnvMap) : EnvMap × Bool :=
  let original_env := env.map fun kv => (kv.1, (e0 : List (String × String)).lookup kv.1)
  let e1 := env_update e0 env
  let bodyOut := body e1
  let restored := restore_env original_env bodyOut.1
  (restored.1, bodyOut.2 || restored.2)

/-- Embedding of the `helpers.change_cwd` context manager (helpers.py:51-61)
around an arbitrary body: the original working directory is saved, the
process changes into `dir_path`, the body runs (returning the directory it
leaves the process in and whether it raised), and the `finally` block changes
back to the original directory on every exit path. -/
def change_cwd (dir_path : String) (body : String → String × Bool)
    (cwd0 : String) : String × Bool :=
  let orig_cwd := cwd0
  let bodyOut := body dir_path
  let _ := bodyOut.1
  (orig_cwd, bodyOut.2)

/-! ## Interval membership (`helpers.is_in_interval`, helpers.py:245-250)

The source computes with Python floats (IEEE binary64).  Two embeddings are
given: `is_in_interval` reads the formula in exact rational arithmetic
(every operation exact, no rounding), and `is_in_interval_float` evaluates
the same formula over dyadic rationals with binary64 round-to-nearest-even
applied after each arithmetic operation, as the hardware does.  The two
models disagree: rounding can collapse the two bounds onto `num2`. -/

/-- The formula of `helpers.is_in_interval` (helpers.py:245-250) read in
exact rational arithmetic: no rounding between operations.  This is an
idealisation of the source, which computes with IEEE doubles; see
`is_in_interval_float` for the rounded evaluation. -/
def is_in_interval (num1 num2 : ℚ) (frac : ℚ := 1/10) : Bool :=
  let num2_frac := num2 * frac
  let imin := num2 - num2_frac
  let imax := num2 + num2_frac
  decide (imin ≤ num1 ∧ num1 ≤ imax)

/-- The rational value `2^e` for an integer exponent (used to give dyadic
floats their rational denotation). -/
def pow2q (e : Int) : ℚ :=
  if 0 ≤ e then ((2 ^ e.toNat : ℕ) : ℚ)
  else 1 / ((2 ^ (-e).toNat : ℕ) : ℚ)

/-- A dyadic rational `m * 2^e`: the exact value set of finite IEEE binary64
floats (with unbounded exponent; infinities and NaN are not modelled, and
every value the claim exercises is far inside the normal range). -/
structure Dyadic where
  m : Int
  e : Int
deriving DecidableEq, Repr

/-- The rational denoted by a dyadic. -/
def Dyadic.toRat (d : Dyadic) : ℚ :=
  (d.m : ℚ) * pow2q d.e

/-- Bring two dyadics to a common (minimum) exponent, returning both
significands and that exponent.  Exact: no information is lost. -/
def dyAlign (a b : Dyadic) : Int × Int × Int :=
  if a.e ≤ b.e then (a.m, b.m * (2 : Int) ^ (b.e - a.e).toNat, a.e)
  else (a.m * (2 : Int) ^ (a.e - b.e).toNat, b.m, b.e)

/-- Exact dyadic addition. -/
def Dyadic.add (a b : Dyadic) : Dyadic :=
  let s := dyAlign a b
  { m := s.1 + s.2.1, e := s.2.2 }

/-- Exact dyadic subtraction. -/
def Dyadic.sub (a b : Dyadic) : Dyadic :=
  let s := dyAlign a b
  { m := s.1 - s.2.1, e := s.2.2 }

/-- Exact dyadic multiplication. -/
def Dyadic.mul (a b : Dyadic) : Dyadic :=
  { m := a.m * b.m, e := a.e + b.e }

/-- Dyadic comparison `a ≤ b` (IEEE comparisons of finite floats are exact
value comparisons). -/
def Dyadic.ble (a b : Dyadic) : Bool :=
  let s := dyAlign a b
  s.1 ≤ s.2.1

/-- Dyadic comparison `a < b`. -/
def Dyadic.blt (a b : Dyadic) : Bool :=
  let s := dyAlign a b
  s.1 < s.2.1

/-- Number of binary digits of a natural number (`0` for `0`), computed with
explicit fuel so that it reduces structurally; `fuel = n` always suffices. -/
def bitlenAux : Nat → Nat → Nat
  | 0, _ => 0
  | fuel + 1, n => if n = 0 then 0 else bitlenAux fuel (n / 2) + 1

/-- Number of binary digits of a natural number. -/
def bitlen (n : Nat) : Nat :=
  bitlenAux n n

/-- IEEE binary64 round-to-nearest-even on an exact dyadic value: when the
significand needs more than 53 bits, the excess `s` low bits are dropped and
the 53-bit significand is rounded to nearest, ties to the even significand
(the sign is handled symmetrically, as IEEE does).  The exponent is left
unbounded: no overflow or subnormal handling, which is faithful for the
magnitudes exercised here. -/
def round64 (d : Dyadic) : Dyadic :=
  if d.m = 0 then { m := 0, e := 0 }
  else
    let n := d.m.natAbs
    let len := bitlen n
    if len ≤ 53 then d
    else
      let s := len - 53
      let q := n / 2 ^ s
      let r := n % 2 ^ s
      let half := 2 ^ (s - 1)
      let q1 := if r < half then q
                else if half < r then q + 1
                else if q % 2 = 0 then q else q + 1
      { m := if d.m < 0 then -(q1 : Int) else (q1 : Int), e := d.e + (s : Int) }

/-- `helpers.is_in_interval` under the source's actual IEEE-double
arithmetic: the same formula, with binary64 rounding applied to the result
of each arithmetic operation (`num2 * frac`, `num2 - num2_frac`,
`num2 + num2_frac`), and exact comparisons.  The arguments stand for the
double inputs, so they are taken as already-representable dyadics. -/
def is_in_interval_float (num1 num2 frac : Dyadic) : Bool :=
  let num2_frac := round64 (num2.mul frac)
  let imin := round64 (num2.sub num2_frac)
  let imax := round64 (num2.add num2_frac)
  imin.ble num1 && num1.ble imax

/-! ## Theorems -/

/-- C1: for every integer `idx ≥ 1`, `get_yes_abstain_vote idx` is YES when
`idx = 1` or `idx` is even, NO when `idx` is a non-even multiple of 3, and
ABSTAIN otherwise, and `get_no_abstain_vote` is the mirror (NO / YES /
ABSTAIN under the same three conditions).  Both embeddings are Lean
functions, hence pure, total and deterministic. -/
theorem claim_C1_vote_patterns (idx : Int) (h : 1 ≤ idx) :
    ((idx = 1 ∨ idx % 2 = 0) →
      get_yes_abstain_vote idx = Votes.YES ∧ get_no_abstain_vote idx = Votes.NO) ∧
    ((idx % 3 = 0 ∧ ¬ idx % 2 = 0) →
      get_yes_abstain_vote idx = Votes.NO ∧ get_no_abstain_vote idx = Votes.YES) ∧
    ((idx ≠ 1 ∧ ¬ idx % 2 = 0 ∧ ¬ idx % 3 = 0) →
      get_yes_abstain_vote idx = Votes.ABSTAIN ∧ get_no_abstain_vote idx = Votes.ABSTAIN) := by
  unfold get_yes_abstain_vote get_no_abstain_vote
  refine ⟨fun hc => ?_, fun hc => ?_, fun hc => ?_⟩
  · rw [if_pos hc, if_pos hc]
    exact ⟨rfl, rfl⟩
  · have hn1 : idx ≠ 1 := by
      rintro rfl
      omega
    have hnc : ¬ (idx = 1 ∨ idx % 2 = 0) := by
      rintro (h1 | h2)
      · exact hn1 h1
      · exact hc.2 h2
    rw [if_neg hnc, if_neg hnc, if_pos hc.1, if_pos hc.1]
    exact ⟨rfl, rfl⟩
  · have hnc : ¬ (idx = 1 ∨ idx % 2 = 0) := by
      rintro (h1 | h2)
      · exact hc.1 h1
      · exact hc.2.1 h2
    rw [if_neg hnc, if_neg hnc, if_neg hc.2.2, if_neg hc.2.2]
    exact ⟨rfl, rfl⟩

/-- C1 witness: the theorem applied at `idx = 3` (a non-even multiple of 3). -/
theorem claim_C1_vote_patterns_witness :
    get_yes_abstain_vote 3 = Votes.NO ∧ get_no_abstain_vote 3 = Votes.YES :=
  (claim_C1_vote_patterns 3 (by decide)).2.1 (by decide)

/-- C3 counterexample: at `idx = 5` (an odd non-multiple of 3 other than 1)
both pattern functions return ABSTAIN, so the two functions do return the
same vote value for that index, refuting the claim as stated. -/
theorem claim_C3_counterexample :
    (1 : Int) ≤ 5 ∧ get_yes_abstain_vote 5 = get_no_abstain_vote 5 := by
  decide

/-- C3 amended: for every integer `idx ≥ 1`, `get_yes_abstain_vote idx` and
`get_no_abstain_vote idx` return the same vote value exactly when that common
value is ABSTAIN (equivalently, on the odd non-multiples of 3 other than 1);
whenever either returns YES or NO the two functions disagree. -/
theorem claim_C3_amended (idx : Int) (_h : 1 ≤ idx) :
    (get_yes_abstain_vote idx = get_no_abstain_vote idx) ↔
      get_yes_abstain_vote idx = Votes.ABSTAIN := by
  unfold get_yes_abstain_vote get_no_abstain_vote
  split_ifs <;> simp

/-- C3 amended, witness: the amended theorem applied at `idx = 5`. -/
theorem claim_C3_amended_witness :
    get_yes_abstain_vote 5 = get_no_abstain_vote 5 :=
  (claim_C3_amended 5 (by decide)).mpr (by decide)

/-- C2 counterexample: a state with exactly one removed action, two
remaining proposals, and a still-open proposal that has already expired
while matching the removed action's id.  The claim predicts `False` here
("no matching proposal" is required for `True`), but the code returns
`True`: the polarity of the final condition in the claim is inverted. -/
theorem claim_C2_counterexample :
    possible_rem_issue
      { expiredGovActions := [{ txId := "A", govActionIx := 0 }],
        proposals :=
          [{ actionId := { txId := "A", govActionIx := 0 }, expiresAfter := 0 },
           { actionId := { txId := "B", govActionIx := 0 }, expiresAfter := 10 }] }
      5 = true ∧
    possible_rem_issue_claimed
      { expiredGovActions := [{ txId := "A", govActionIx := 0 }],
        proposals :=
          [{ actionId := { txId := "A", govActionIx := 0 }, expiresAfter := 0 },
           { actionId := { txId := "B", govActionIx := 0 }, expiresAfter := 10 }] }
      5 = false := by
  decide

/-- C2 amended: `possible_rem_issue gov_state epoch` returns `True` exactly
when exactly one action appears in `nextRatifyState.expiredGovActions`, the
number of entries in `proposals` differs from one, and SOME still-open
proposal has already expired (its `expiresAfter` epoch is strictly before the
current epoch) while matching the `(txId, govActionIx)` of the single removed
action entry; in all other cases it returns `False`. -/
theorem claim_C2_amended (gov_state : GovState) (epoch : Int) :
    possible_rem_issue gov_state epoch = true ↔
      ∃ removed0, gov_state.expiredGovActions = [removed0] ∧
        gov_state.proposals.length ≠ 1 ∧
        ∃ p ∈ gov_state.proposals, p.expiresAfter < epoch ∧
          p.actionId.txId = removed0.txId ∧
          p.actionId.govActionIx = removed0.govActionIx := by
  unfold possible_rem_issue
  by_cases hguard : gov_state.expiredGovActions.length ≠ 1 ∨ gov_state.proposals.length = 1
  · rw [if_pos hguard]
    simp only [Bool.false_eq_true, false_iff]
    rintro ⟨removed0, hrem, hlen, -⟩
    rcases hguard with h1 | h1
    · exact h1 (by rw [hrem]; rfl)
    · exact hlen h1
  · rw [if_neg hguard]
    push_neg at hguard
    obtain ⟨hlen1, hlenp⟩ := hguard
    match hrem : gov_state.expiredGovActions with
    | [] => rw [hrem] at hlen1; simp at hlen1
    | removed0 :: rest =>
      have hrest : rest = [] := by
        rw [hrem] at hlen1
        simpa using hlen1
      subst hrest
      simp only [List.any_eq_true, Bool.and_eq_true, decide_eq_true_eq, beq_iff_eq]
      constructor
      · rintro ⟨p, hp, hcond⟩
        exact ⟨removed0, rfl, hlenp, p, hp, hcond.1.1, hcond.1.2, hcond.2⟩
      · rintro ⟨r0, hr0, -, p, hp, he, ht, hi⟩
        have hr : r0 = removed0 := by
          injection hr0 with hh _
          exact hh.symm
        subst hr
        exact ⟨p, hp, ⟨⟨he, ht⟩, hi⟩⟩

/-- C10 counterexample: under the source's IEEE-double arithmetic the claim
fails.  At `num2 = -1.0` and `frac = 2^-60` (so `num2 < 0 < frac`, first
conjunct) the product `num2 * frac = -2^-60` is far below half an ulp of
`1.0`, both computed bounds round back to the double `-1.0` (third and
fourth conjuncts trace the two rounded bounds, whose rational denotations
are both `-1`), and the function returns `True` at `num1 = num2` (second
conjunct) -- so it does not return `False` for every `num1`, and the
computed lower bound does not exceed the computed upper bound there. -/
theorem claim_C10_counterexample :
    (Dyadic.blt { m := -1, e := 0 } { m := 0, e := 0 } = true ∧
     Dyadic.blt { m := 0, e := 0 } { m := 1, e := -60 } = true) ∧
    is_in_interval_float { m := -1, e := 0 } { m := -1, e := 0 }
      { m := 1, e := -60 } = true ∧
    (round64 (Dyadic.sub { m := -1, e := 0 }
        (round64 (Dyadic.mul { m := -1, e := 0 } { m := 1, e := -60 })))
      = { m := -(2 ^ 53), e := -53 } ∧
     round64 (Dyadic.add { m := -1, e := 0 }
        (round64 (Dyadic.mul { m := -1, e := 0 } { m := 1, e := -60 })))
      = { m := -(2 ^ 52), e := -52 }) ∧
    (Dyadic.toRat { m := -(2 ^ 53), e := -53 } = -1 ∧
     Dyadic.toRat { m := -(2 ^ 52), e := -52 } = -1 ∧
     Dyadic.toRat { m := -1, e := 0 } = -1 ∧
     Dyadic.toRat { m := 1, e := -60 } = 1 / 1152921504606846976) := by
  refine ⟨by decide, by decide, by decide, ?_, ?_, ?_, ?_⟩ <;>
    norm_num [Dyadic.toRat, pow2q, show Int.toNat 53 = 53 from rfl,
      show Int.toNat 52 = 52 from rfl, show Int.toNat 60 = 60 from rfl]

/-- C10 amended: in exact arithmetic the claim holds -- for every reference
value `num2 < 0` and fraction `frac > 0`, the exact-arithmetic reading
`is_in_interval num1 num2 frac` is `false` for every `num1` (including
`num1 = num2`), because the exactly computed lower bound
`num2 - num2 * frac` strictly exceeds the exactly computed upper bound
`num2 + num2 * frac`; under the source's IEEE-double evaluation this can
fail when `num2 * frac` rounds to within half an ulp of `num2`, where both
bounds round back to `num2` and the check returns `True` at `num1 = num2`
(see the counterexample). -/
theorem claim_C10_is_in_interval (num1 num2 frac : ℚ) (h2 : num2 < 0)
    (hf : 0 < frac) :
    is_in_interval num1 num2 frac = false ∧
    num2 + num2 * frac < num2 - num2 * frac := by
  have hm : num2 * frac < 0 := mul_neg_of_neg_of_pos h2 hf
  refine ⟨?_, by linarith⟩
  unfold is_in_interval
  simp only [decide_eq_false_iff_not, not_and, not_le]
  intro hle
  linarith

/-- C10 amended, witness: the theorem applied at `num1 = num2 = -5` with
the default fraction `1/10`; the exact-arithmetic membership check is not
reflexive at `-5`. -/
theorem claim_C10_is_in_interval_witness :
    is_in_interval (-5) (-5) (1/10) = false :=
  (claim_C10_is_in_interval (-5) (-5) (1/10) (by norm_num) (by norm_num)).1

/-- C6: `run_command` returns `Except.ok` with the captured standard output
exactly when the exit code is zero or `ignore_fail` is set; it raises exactly
when the exit code is non-zero and `ignore_fail` is unset, and the raised
message then ends with the captured standard-error text, falling back to the
captured standard-output text when standard error is empty. -/
theorem claim_C6_run_command (command : String ⊕ List String)
    (proc : ProcResult) (ignore_fail : Bool) :
    (∀ s, run_command command proc ignore_fail = Except.ok s ↔
      (s = proc.stdout ∧ (proc.returncode = 0 ∨ ignore_fail = true))) ∧
    ((∃ msg, run_command command proc ignore_fail = Except.error msg) ↔
      (proc.returncode ≠ 0 ∧ ignore_fail = false)) ∧
    (∀ msg, run_command command proc ignore_fail = Except.error msg →
      msg = "An error occurred while running " ++ run_command_cmd_str command
        ++ ": " ++ (if proc.stderr = "" then proc.stdout else proc.stderr)) := by
  unfold run_command run_command_cmd_str
  by_cases hfail : ignore_fail = false ∧ proc.returncode ≠ 0
  · rw [if_pos hfail]
    refine ⟨fun s => ?_, ?_, fun msg hmsg => ?_⟩
    · simp only [reduceCtorEq, false_iff, not_and]
      rintro rfl (h0 | htrue)
      · exact hfail.2 h0
      · rw [htrue] at hfail
        exact Bool.true_eq_false ▸ hfail.1
    · simp only [Except.error.injEq, exists_eq', true_iff]
      exact ⟨hfail.2, hfail.1⟩
    · rcases command with s | l <;>
        · injection hmsg with h
          rw [← h]
  · rw [if_neg hfail]
    refine ⟨fun s => ?_, ?_, fun msg hmsg => ?_⟩
    · simp only [Except.ok.injEq]
      constructor
      · intro hs
        refine ⟨hs.symm, ?_⟩
        by_cases hig : ignore_fail = false
        · left
          by_contra hne
          exact hfail ⟨hig, hne⟩
        · right
          exact Bool.not_eq_false ignore_fail ▸ hig
      · intro hs
        exact hs.1.symm
    · simp only [reduceCtorEq, exists_false, false_iff, not_and]
      intro hne hig
      exact hfail ⟨hig, hne⟩
    · exact absurd hmsg (by simp)

/-- C6 witness: the theorem applied to a concrete zero-exit process outcome
with `ignore_fail` unset: the captured standard output is returned. -/
theorem claim_C6_run_command_witness :
    run_command (Sum.inl "bech32")
      { returncode := 0, stdout := "out", stderr := "err" } false
      = Except.ok "out" :=
  ((claim_C6_run_command (Sum.inl "bech32")
      { returncode := 0, stdout := "out", stderr := "err" } false).1 "out").mpr
    ⟨rfl, Or.inl rfl⟩

/-- C7 counterexample: when the key "committee" is present but maps to an
empty (hence falsy) dictionary while the misspelled key "commitee" maps to a
non-empty one, `get_committee_val` returns the value under the misspelled
key, not the value stored under "committee" as the claim states: the Python
`or` falls through on any falsy value, not only on an absent key. -/
theorem claim_C7_counterexample :
    get_committee_val jdict_truthy ([] : JDict)
        [("committee", ([] : JDict)), ("commitee", [("quorum", 3)])]
      = [("quorum", 3)] ∧
    (([("committee", ([] : JDict)), ("commitee", [("quorum", 3)])]).lookup
        "committee") = some ([] : JDict) ∧
    ([("quorum", 3)] : JDict) ≠ ([] : JDict) := by
  decide

/-- C7 amended: `get_committee_val` returns the value under "committee" when
that key is present with a truthy (non-empty) value; otherwise the value
under the misspelled "commitee" when that one is present and truthy;
otherwise the empty dictionary.  Stated generically in the value type, with
Python truthiness as a parameter, since the source is dynamically typed. -/
theorem claim_C7_amended {α : Type} (truthy : α → Bool) (emptyDict : α)
    (data : List (String × α)) :
    (∀ v, data.lookup "committee" = some v → truthy v = true →
      get_committee_val truthy emptyDict data = v) ∧
    (py_opt_truthy truthy (data.lookup "committee") = false →
      ∀ w, data.lookup "commitee" = some w → truthy w = true →
        get_committee_val truthy emptyDict data = w) ∧
    (py_opt_truthy truthy (data.lookup "committee") = false →
      py_opt_truthy truthy (data.lookup "commitee") = false →
      get_committee_val truthy emptyDict data = emptyDict) := by
  unfold get_committee_val
  refine ⟨fun v hv htr => ?_, fun hf w hw htr => ?_, fun hf1 hf2 => ?_⟩
  · rw [if_pos (by rw [hv]; exact htr)]
    rw [hv]
    rfl
  · rw [if_neg (by rw [hf]; exact Bool.false_ne_true), if_pos (by rw [hw]; exact htr)]
    rw [hw]
    rfl
  · rw [if_neg (by rw [hf1]; exact Bool.false_ne_true),
      if_neg (by rw [hf2]; exact Bool.false_ne_true)]

/-- C7 amended, witness: the amended theorem applied to a dictionary whose
"committee" key holds a non-empty value. -/
theorem claim_C7_amended_witness :
    get_committee_val jdict_truthy ([] : JDict) [("committee", [("quorum", 3)])]
      = [("quorum", 3)] :=
  (claim_C7_amended jdict_truthy [] [("committee", [("quorum", 3)])]).1
    [("quorum", 3)] (by decide) (by decide)

/-- C4: after a governance-action proposal submission — constitution change
via `propose_change_constitution` or parameter update via
`propose_pparams_update` — the routine asserts that the first UTxO at the
first funding address equals the balance of the transaction's inputs minus
the fee minus the `govActionDeposit` amount subtracted exactly once, for any
number of supplied funding addresses (one proposal file each) carried by the
single transaction; a violation of the equality aborts the scenario (an
`Except.error`), and success is only possible when the equality holds. -/
theorem claim_C4_proposal_balance (env : ProposeEnv) (u0 : PoolUserAddrs)
    (rest : List PoolUserAddrs) (o0 : Utxo) (os : List Utxo)
    (proposals : List String)
    (hfu : filter_utxos env.out_utxos u0.payment_address = o0 :: os) :
    (∀ r, propose_change_constitution env (u0 :: rest) = Except.ok r →
      o0.amount
        = calculate_utxos_balance env.tx_output.txins - env.tx_output.fee
          - env.deposit_amt) ∧
    (o0.amount
        ≠ calculate_utxos_balance env.tx_output.txins - env.tx_output.fee
          - env.deposit_amt →
      propose_change_constitution env (u0 :: rest)
        = Except.error "Incorrect balance for source address") ∧
    (∀ r, propose_pparams_update env (u0 :: rest) proposals = Except.ok r →
      o0.amount
        = calculate_utxos_balance env.tx_output.txins - env.tx_output.fee
          - env.deposit_amt) ∧
    (o0.amount
        ≠ calculate_utxos_balance env.tx_output.txins - env.tx_output.fee
          - env.deposit_amt →
      propose_pparams_update env (u0 :: rest) proposals
        = Except.error "Incorrect balance for source address") := by
  unfold propose_change_constitution propose_pparams_update
  dsimp only
  rw [hfu]
  dsimp only
  by_cases hbal : o0.amount
      = calculate_utxos_balance env.tx_output.txins - env.tx_output.fee
        - env.deposit_amt
  · rw [if_pos hbal, if_pos hbal]
    exact ⟨fun r _ => hbal, fun hne => absurd hbal hne,
           fun r _ => hbal, fun hne => absurd hbal hne⟩
  · rw [if_neg hbal, if_neg hbal]
    refine ⟨fun r hr => ?_, fun _ => ?_, fun r hr => ?_, fun _ => ?_⟩
    · cases env.prop_action <;> simp at hr
    · cases henv : env.prop_action <;> rfl
    · cases env.prop_action <;> simp at hr
    · cases henv : env.prop_action <;> rfl

/-- C4 witness: the theorem applied to a concrete environment whose first
UTxO violates the balance equality (90 instead of 100 - 2 - 3 = 95): the
constitution-change routine aborts with the balance assertion. -/
theorem claim_C4_proposal_balance_witness :
    propose_change_constitution
      { deposit_amt := 3,
        tx_output := { txins := [{ address := "f", amount := 100 }], fee := 2 },
        out_utxos := [{ address := "addr0", amount := 90 }],
        action_txid := "t",
        prop_action := none }
      [{ payment_address := "addr0", stake_vkey_file := "sv",
         payment_skey_file := "sk" }]
      = Except.error "Incorrect balance for source address" :=
  (claim_C4_proposal_balance
      { deposit_amt := 3,
        tx_output := { txins := [{ address := "f", amount := 100 }], fee := 2 },
        out_utxos := [{ address := "addr0", amount := 90 }],
        action_txid := "t",
        prop_action := none }
      { payment_address := "addr0", stake_vkey_file := "sv",
        payment_skey_file := "sk" }
      [] { address := "addr0", amount := 90 } [] [] (by decide)).2.1 (by decide)

/-- Association-list lookup of the key just inserted at the head. -/
theorem lookup_cons_self {β : Type} (k : String) (v : β) (es : List (String × β)) :
    (((k, v) :: es).lookup k) = some v := by
  simp [List.lookup]

/-- `fund_and_register` succeeds only on a nonempty user list, returns
exactly the users it was given, and leaves the fixture cache untouched. -/
theorem fund_and_register_ok (pool_users : List PoolUserId) (w : World)
    (users : List PoolUserId) (w1 : World)
    (h : fund_and_register pool_users w = Except.ok (users, w1)) :
    users = pool_users ∧ w1.cache = w.cache ∧ pool_users ≠ [] := by
  match pool_users with
  | [] => simp [fund_and_register] at h
  | u :: us =>
    simp only [fund_and_register, Except.ok.injEq, Prod.mk.injEq] at h
    refine ⟨h.1.symm, ?_, by simp⟩
    rw [← h.2]

/-- C8: with a non-empty caching key, a second call to
`get_registered_pool_user` after a successful first call returns the
identical participant list and the identical world: the cache-hit path
performs no additional faucet funding, certificate generation, transaction
submission or stake-address registration (all the side-effect counters and
records of the `World` are exactly those left by the first call). -/
theorem claim_C8_cache_idempotent (caching_key : String) (no_of_users : Nat)
    (w0 w1 : World) (users : List PoolUserId)
    (hkey : caching_key ≠ "")
    (h1 : get_registered_pool_user caching_key no_of_users w0
            = Except.ok (users, w1)) :
    get_registered_pool_user caching_key no_of_users w1
      = Except.ok (users, w1) := by
  have hcache : w1.cache.lookup caching_key = some users ∧ users ≠ [] := by
    unfold get_registered_pool_user at h1
    rw [if_pos hkey] at h1
    cases hl0 : w0.cache.lookup caching_key with
    | some cached =>
      rw [hl0] at h1
      dsimp only at h1
      by_cases hce : List.isEmpty cached
      · rw [if_neg (by rw [hce]; simp)] at h1
        obtain ⟨hu, hc, hne⟩ := fund_and_register_ok _ _ _ _ h1
        subst hu
        rw [hc]
        exact ⟨lookup_cons_self .., hne⟩
      · rw [if_pos (by simp only [Bool.not_eq_true] at hce
                       simp [hce])] at h1
        injection h1 with h1
        injection h1 with hu hw
        subst hu hw
        refine ⟨hl0, ?_⟩
        intro hnil
        rw [hnil] at hce
        exact hce rfl
    | none =>
      rw [hl0] at h1
      dsimp only at h1
      obtain ⟨hu, hc, hne⟩ := fund_and_register_ok _ _ _ _ h1
      subst hu
      rw [hc]
      exact ⟨lookup_cons_self .., hne⟩
  obtain ⟨hl, hne⟩ := hcache
  unfold get_registered_pool_user
  rw [if_pos hkey, hl]
  dsimp only
  rw [if_pos (by cases users with
    | nil => exact absurd rfl hne
    | cons a l => simp)]

/-- C8 witness: the theorem applied to a concrete first call (fresh world,
cache key "k", one user), showing the second call returns the identical list
and world. -/
theorem claim_C8_cache_idempotent_witness :
    get_registered_pool_user "k" 1
      { cache := [("k", [{ uid := 0 }])], user_counter := 1, funding_txs := 1,
        reg_certs := 1, submitted_txs := 1, registered := [0] }
      = Except.ok ([{ uid := 0 }],
        { cache := [("k", [{ uid := 0 }])], user_counter := 1, funding_txs := 1,
          reg_certs := 1, submitted_txs := 1, registered := [0] }) :=
  claim_C8_cache_idempotent "k" 1
    { cache := [], user_counter := 0, funding_txs := 0, reg_certs := 0,
      submitted_txs := 0, registered := [] }
    { cache := [("k", [{ uid := 0 }])], user_counter := 1, funding_txs := 1,
      reg_certs := 1, submitted_txs := 1, registered := [0] }
    [{ uid := 0 }] (by decide) rfl

/-- Indices produced by `List.enumFrom` are at least the start index. -/
theorem enumFrom_fst_ge {α : Type} :
    ∀ (xs : List α) (n : Nat) (p : Nat × α), p ∈ List.enumFrom n xs → n ≤ p.1 := by
  intro xs
  induction xs with
  | nil =>
    intro n p hp
    simp [List.enumFrom] at hp
  | cons x xs ih =>
    intro n p hp
    rw [List.enumFrom_cons] at hp
    rcases List.mem_cons.mp hp with rfl | hp
    · exact Nat.le_refl n
    · exact Nat.le_of_succ_le (ih (n + 1) p hp)

/-- A vote record produced by `mk_vote_rec` carries the enumeration index. -/
theorem mk_vote_rec_idx (cat : String) (ap : Bool) (skip_votes : Bool)
    (im : Nat × String) (r : VoteRec)
    (h : mk_vote_rec cat ap skip_votes im = some r) : r.idx = im.1 := by
  unfold mk_vote_rec at h
  by_cases hc : (skip_votes && im.1 % 3 == 0) = true
  · rw [if_pos hc] at h
    exact absurd h (by simp)
  · rw [if_neg hc] at h
    injection h with h
    rw [← h]

/-- Every record in a category block built from start index `n` has index at
least `n`. -/
theorem mem_build_aux_idx_ge (cat : String) (ap : Bool) (skip_votes : Bool) :
    ∀ (xs : List String) (n : Nat) (r : VoteRec),
      r ∈ ((List.enumFrom n xs).map (mk_vote_rec cat ap skip_votes)).filterMap id →
      n ≤ r.idx := by
  intro xs
  induction xs with
  | nil =>
    intro n r hr
    simp [List.enumFrom] at hr
  | cons x xs ih =>
    intro n r hr
    rw [List.enumFrom_cons, List.map_cons, List.filterMap_cons] at hr
    cases hmk : mk_vote_rec cat ap skip_votes (n, x) with
    | none =>
      rw [hmk] at hr
      exact Nat.le_of_succ_le (ih (n + 1) r hr)
    | some v =>
      rw [hmk] at hr
      rcases List.mem_cons.mp hr with rfl | hr
      · rw [mk_vote_rec_idx cat ap skip_votes (n, x) r hmk]
      · exact Nat.le_of_succ_le (ih (n + 1) r hr)

/-- In a category block, the sub-list of records carrying the enumeration
index `i` of a member `(i, m)` is empty when `mk_vote_rec` skips that member
and exactly the one created record otherwise. -/
theorem build_aux_filter (cat : String) (ap : Bool) (skip_votes : Bool) :
    ∀ (xs : List String) (n : Nat) (i : Nat) (m : String),
      (i, m) ∈ List.enumFrom n xs →
      ((((List.enumFrom n xs).map (mk_vote_rec cat ap skip_votes)).filterMap id).filter
          fun r => r.idx == i)
        = (match mk_vote_rec cat ap skip_votes (i, m) with
           | none => []
           | some v => [v]) := by
  intro xs
  induction xs with
  | nil =>
    intro n i m hmem
    simp [List.enumFrom] at hmem
  | cons x xs ih =>
    intro n i m hmem
    rw [List.enumFrom_cons] at hmem
    rw [List.enumFrom_cons, List.map_cons, List.filterMap_cons]
    have htail_nil : ∀ j, j = n →
        ((((List.enumFrom (n + 1) xs).map (mk_vote_rec cat ap skip_votes)).filterMap id).filter
            fun r => r.idx == j) = [] := by
      intro j hj
      apply List.filter_eq_nil_iff.mpr
      intro r hr
      have hge := mem_build_aux_idx_ge cat ap skip_votes xs (n + 1) r hr
      simp only [beq_iff_eq, decide_eq_true_eq]
      omega
    rcases List.mem_cons.mp hmem with heq | htail
    · have hi : i = n := congrArg Prod.fst heq
      have hm : m = x := congrArg Prod.snd heq
      subst hi hm
      cases hmk : mk_vote_rec cat ap skip_votes (i, m) with
      | none =>
        simp only [id_eq]
        exact htail_nil i rfl
      | some v =>
        simp only [id_eq]
        rw [List.filter_cons]
        rw [if_pos (by simp [mk_vote_rec_idx cat ap skip_votes (i, m) v hmk])]
        rw [htail_nil i rfl]
    · have hge : n + 1 ≤ i := enumFrom_fst_ge xs (n + 1) (i, m) htail
      cases hmk : mk_vote_rec cat ap skip_votes (n, x) with
      | none =>
        simp only [id_eq]
        exact ih (n + 1) i m htail
      | some v =>
        simp only [id_eq]
        rw [List.filter_cons]
        rw [if_neg (by
          have hv := mk_vote_rec_idx cat ap skip_votes (n, x) v hmk
          simp only [hv, beq_iff_eq, decide_eq_true_eq]
          omega)]
        exact ih (n + 1) i m htail

/-- `mk_vote_rec` as a one- or zero-element list, with the skip condition
written propositionally. -/
theorem mk_vote_rec_eval (cat : String) (ap : Bool) (skip_votes : Bool)
    (i : Nat) (m : String) :
    (match mk_vote_rec cat ap skip_votes (i, m) with
     | none => []
     | some v => [v])
      = (if skip_votes = true ∧ i % 3 = 0 then ([] : List VoteRec)
         else [{ cat := cat, idx := i,
                 vote := if ap then get_yes_abstain_vote (i : Int)
                         else get_no_abstain_vote (i : Int),
                 voter_key := m }]) := by
  by_cases h : skip_votes = true ∧ i % 3 = 0
  · have hb : (skip_votes && (i % 3 == 0)) = true := by
      rw [h.1]
      simp [h.2]
    rw [if_pos h]
    unfold mk_vote_rec
    rw [if_pos hb]
  · have hb : ¬ ((skip_votes && (i % 3 == 0)) = true) := by
      simp only [Bool.and_eq_true, beq_iff_eq]
      exact h
    rw [if_neg h]
    unfold mk_vote_rec
    rw [if_neg hb]

/-- C5: in `cast_vote`, for each voter category whose approval flag is set,
the produced vote records are exactly one record per enumerated participant
generated from the pattern functions (`get_yes_abstain_vote` on approval,
`get_no_abstain_vote` on rejection), except that when the category's skip
flag is set the participants whose 1-based enumeration index is a multiple
of 3 are omitted entirely (no record carries their index); and all produced
records are bundled into the single transaction submission (`votes_all` of
the one `submit_vote` call is the concatenation of the three category
lists). -/
theorem claim_C5_cast_vote (gd : GovernanceData) (apc apd aps : Bool)
    (cc_skip drep_skip spo_skip : Bool) :
    (∀ i m, (i, m) ∈ List.enumFrom 1 gd.cc_members →
      ((cast_vote gd (some apc) (some apd) (some aps)
          cc_skip drep_skip spo_skip).voted.cc.filter fun r => r.idx == i)
        = (if cc_skip = true ∧ i % 3 = 0 then []
           else [{ cat := "cc", idx := i,
                   vote := if apc then get_yes_abstain_vote (i : Int)
                           else get_no_abstain_vote (i : Int),
                   voter_key := m }])) ∧
    (∀ i m, (i, m) ∈ List.enumFrom 1 gd.dreps_reg →
      ((cast_vote gd (some apc) (some apd) (some aps)
          cc_skip drep_skip spo_skip).voted.drep.filter fun r => r.idx == i)
        = (if drep_skip = true ∧ i % 3 = 0 then []
           else [{ cat := "drep", idx := i,
                   vote := if apd then get_yes_abstain_vote (i : Int)
                           else get_no_abstain_vote (i : Int),
                   voter_key := m }])) ∧
    (∀ i m, (i, m) ∈ List.enumFrom 1 gd.pools_cold →
      ((cast_vote gd (some apc) (some apd) (some aps)
          cc_skip drep_skip spo_skip).voted.spo.filter fun r => r.idx == i)
        = (if spo_skip = true ∧ i % 3 = 0 then []
           else [{ cat := "pool", idx := i,
                   vote := if aps then get_yes_abstain_vote (i : Int)
                           else get_no_abstain_vote (i : Int),
                   voter_key := m }])) ∧
    (cast_vote gd (some apc) (some apd) (some aps)
        cc_skip drep_skip spo_skip).submitted_votes
      = (cast_vote gd (some apc) (some apd) (some aps)
          cc_skip drep_skip spo_skip).voted.cc
        ++ (cast_vote gd (some apc) (some apd) (some aps)
          cc_skip drep_skip spo_skip).voted.drep
        ++ (cast_vote gd (some apc) (some apd) (some aps)
          cc_skip drep_skip spo_skip).voted.spo ∧
    (cast_vote gd (some apc) (some apd) (some aps)
        cc_skip drep_skip spo_skip).submitted_tx_count = 1 := by
  refine ⟨fun i m hmem => ?_, fun i m hmem => ?_, fun i m hmem => ?_, ?_, ?_⟩
  · show ((build_cat_votes "cc" (some apc) cc_skip gd.cc_members).filter
      fun r => r.idx == i) = _
    unfold build_cat_votes
    rw [build_aux_filter "cc" apc cc_skip gd.cc_members 1 i m hmem]
    exact mk_vote_rec_eval "cc" apc cc_skip i m
  · show ((build_cat_votes "drep" (some apd) drep_skip gd.dreps_reg).filter
      fun r => r.idx == i) = _
    unfold build_cat_votes
    rw [build_aux_filter "drep" apd drep_skip gd.dreps_reg 1 i m hmem]
    exact mk_vote_rec_eval "drep" apd drep_skip i m
  · show ((build_cat_votes "pool" (some aps) spo_skip gd.pools_cold).filter
      fun r => r.idx == i) = _
    unfold build_cat_votes
    rw [build_aux_filter "pool" aps spo_skip gd.pools_cold 1 i m hmem]
    exact mk_vote_rec_eval "pool" aps spo_skip i m
  · rfl
  · rfl

/-- C5 witness: the theorem applied to a concrete governance-data record
with three committee members, approval and skip flags set: the third member
(index 3, a multiple of 3) is omitted from the produced committee votes. -/
theorem claim_C5_cast_vote_witness :
    ((cast_vote { cc_members := ["h1", "h2", "h3"], dreps_reg := [], pools_cold := [] }
        (some true) (some true) (some true) true true true).voted.cc.filter
      fun r => r.idx == 3) = [] := by
  have h := (claim_C5_cast_vote
      { cc_members := ["h1", "h2", "h3"], dreps_reg := [], pools_cold := [] }
      true true true true true true).1 3 "h3" (by decide)
  rw [h]
  simp

/-- A key absent from an association list (by the `any` test used in
`env_set` / `env_del`) looks up to `none`. -/
theorem lookup_eq_none_of_any_false (e : EnvMap) (k : String)
    (h : e.any (fun kv => kv.1 == k) = false) : e.lookup k = none := by
  induction e with
  | nil => rfl
  | cons kv es ih =>
    simp only [List.any_cons, Bool.or_eq_false_iff] at h
    have hne : ¬ k = kv.1 := fun hk => by
      rw [hk] at h
      simp at h
    simp only [List.lookup, beq_eq_false_iff_ne.mpr hne]
    exact ih h.2

/-- Lookup after the in-place replacement performed by `env_set` when the
key is present: the new value is found. -/
theorem lookup_map_replace_self (k v : String) :
    ∀ (e : EnvMap), e.any (fun kv => kv.1 == k) = true →
      ((e.map fun kv => if kv.1 == k then (k, v) else kv).lookup k) = some v := by
  intro e
  induction e with
  | nil =>
    intro h
    simp at h
  | cons kv es ih =>
    obtain ⟨k0, v0⟩ := kv
    intro h
    by_cases hk : k0 = k
    · subst hk
      simp
    · have hb : (k0 == k) = false := beq_eq_false_iff_ne.mpr hk
      have hne : (k == k0) = false := beq_eq_false_iff_ne.mpr fun he => hk he.symm
      have hes : es.any (fun kv => kv.1 == k) = true := by
        simp only [List.any_cons, Bool.or_eq_true] at h
        rcases h with h | h
        · rw [hb] at h
          exact absurd h (by simp)
        · exact h
      simp only [List.map_cons, hb, Bool.false_eq_true, if_false, List.lookup_cons, hne]
      exact ih hes

/-- The replacement performed by `env_set` does not affect lookups of other
keys. -/
theorem lookup_map_replace_other (k k1 v : String) (hne : k1 ≠ k) :
    ∀ (e : EnvMap),
      ((e.map fun kv => if kv.1 == k then (k, v) else kv).lookup k1) = e.lookup k1 := by
  intro e
  induction e with
  | nil => rfl
  | cons kv es ih =>
    obtain ⟨k0, v0⟩ := kv
    by_cases hk : k0 = k
    · subst hk
      have h1 : (k1 == k0) = false := beq_eq_false_iff_ne.mpr hne
      simp only [List.map_cons, beq_self_eq_true, if_true, List.lookup_cons, h1]
      exact ih
    · have hb : (k0 == k) = false := beq_eq_false_iff_ne.mpr hk
      simp only [List.map_cons, hb, Bool.false_eq_true, if_false, List.lookup_cons]
      cases hk1 : (k1 == k0) with
      | true => rfl
      | false => exact ih

/-- `env_set` stores the value under the key. -/
theorem env_set_lookup_self (e : EnvMap) (k v : String) :
    (env_set e k v).lookup k = some v := by
  unfold env_set
  split_ifs with hany
  · exact lookup_map_replace_self k v e hany
  · rw [Bool.not_eq_true] at hany
    rw [List.lookup_append, lookup_eq_none_of_any_false e k hany]
    simp

/-- `env_set` leaves other keys alone. -/
theorem env_set_lookup_other (e : EnvMap) (k v k1 : String) (hne : k1 ≠ k) :
    (env_set e k v).lookup k1 = e.lookup k1 := by
  unfold env_set
  split_ifs with hany
  · exact lookup_map_replace_other k k1 v hne e
  · rw [List.lookup_append]
    have h2 : (([(k, v)] : EnvMap).lookup k1) = none := by
      simp [List.lookup_cons, beq_eq_false_iff_ne.mpr hne]
    rw [h2]
    cases e.lookup k1 <;> rfl

/-- The `any` test used by `env_set` / `env_del` agrees with lookup
success. -/
theorem any_key_eq_lookup_isSome (k : String) :
    ∀ (e : EnvMap), e.any (fun kv => kv.1 == k) = (e.lookup k).isSome := by
  intro e
  induction e with
  | nil => rfl
  | cons kv es ih =>
    obtain ⟨k0, v0⟩ := kv
    by_cases hk : k0 = k
    · subst hk
      simp
    · have h1 : (k0 == k) = false := beq_eq_false_iff_ne.mpr hk
      have h2 : (k == k0) = false := beq_eq_false_iff_ne.mpr fun he => hk he.symm
      simp only [List.any_cons, List.lookup_cons, h1, h2, Bool.false_or]
      exact ih

/-- The deletion performed by `env_del` removes every binding of the key. -/
theorem lookup_filter_ne_self (k : String) :
    ∀ (e : EnvMap), ((e.filter fun kv => kv.1 ≠ k).lookup k) = none := by
  intro e
  induction e with
  | nil => rfl
  | cons kv es ih =>
    obtain ⟨k0, v0⟩ := kv
    by_cases hk : k0 = k
    · have hd : (decide ((k0, v0).1 ≠ k)) = false := by simp [hk]
      simp only [List.filter_cons, hd, Bool.false_eq_true, if_false]
      exact ih
    · have hd : (decide ((k0, v0).1 ≠ k)) = true := by simp [hk]
      have h2 : (k == k0) = false := beq_eq_false_iff_ne.mpr fun he => hk he.symm
      simp only [List.filter_cons, hd, if_true, List.lookup_cons, h2]
      exact ih

/-- The deletion performed by `env_del` does not affect lookups of other
keys. -/
theorem lookup_filter_ne_other (k k1 : String) (hne : k1 ≠ k) :
    ∀ (e : EnvMap), ((e.filter fun kv => kv.1 ≠ k).lookup k1) = e.lookup k1 := by
  intro e
  induction e with
  | nil => rfl
  | cons kv es ih =>
    obtain ⟨k0, v0⟩ := kv
    by_cases hk : k0 = k
    · have hd : (decide ((k0, v0).1 ≠ k)) = false := by simp [hk]
      have h2 : (k1 == k0) = false := by
        refine beq_eq_false_iff_ne.mpr fun he => hne ?_
        rw [he, hk]
      simp only [List.filter_cons, hd, Bool.false_eq_true, if_false,
        List.lookup_cons, h2]
      exact ih
    · have hd : (decide ((k0, v0).1 ≠ k)) = true := by simp [hk]
      simp only [List.filter_cons, hd, if_true, List.lookup_cons]
      cases hk1 : (k1 == k0) with
      | true => rfl
      | false => exact ih

/-- Lookup finds the stored value of a present key when keys are nodup. -/
theorem lookup_of_mem_nodup {β : Type} (k : String) (ov : β) :
    ∀ (l : List (String × β)), (l.map Prod.fst).Nodup → (k, ov) ∈ l →
      l.lookup k = some ov := by
  intro l
  induction l with
  | nil =>
    intro _ h
    simp at h
  | cons kv es ih =>
    obtain ⟨k0, w⟩ := kv
    intro hnodup hmem
    simp only [List.map_cons, List.nodup_cons] at hnodup
    rcases List.mem_cons.mp hmem with heq | htail
    · have h1 : k = k0 := congrArg Prod.fst heq
      have h2 : ov = w := congrArg Prod.snd heq
      subst h1 h2
      simp
    · have hk : k ≠ k0 := by
        intro he
        subst he
        exact hnodup.1 (List.mem_map_of_mem Prod.fst htail)
      simp only [List.lookup_cons, beq_eq_false_iff_ne.mpr hk]
      exact ih hnodup.2 htail

/-- A key outside the key list looks up to `none`. -/
theorem lookup_eq_none_of_not_mem_keys {β : Type} (k : String)
    (l : List (String × β)) (h : k ∉ l.map Prod.fst) : l.lookup k = none := by
  rw [List.lookup_eq_none_iff]
  intro p hp
  have : p.1 ∈ l.map Prod.fst := List.mem_map_of_mem Prod.fst hp
  simp only [bne_iff_ne, ne_eq]
  intro he
  exact h (he ▸ this)

/-- The restoration loop of `helpers.environ`: when the keys are distinct and
every to-be-deleted key is still present, the loop raises nothing and the
final environment holds the saved value on the saved keys (absence for a
saved `none`) and is untouched elsewhere. -/
theorem restore_env_spec :
    ∀ (saved : List (String × Option String)) (e : EnvMap),
      (saved.map Prod.fst).Nodup →
      (∀ k, (k, none) ∈ saved → ((e.lookup k).isSome) = true) →
      (restore_env saved e).2 = false ∧
      (∀ k, (restore_env saved e).1.lookup k
        = match saved.lookup k with
          | some (some v) => some v
          | some none => none
          | none => e.lookup k) := by
  intro saved
  induction saved with
  | nil =>
    intro e _ _
    exact ⟨rfl, fun k => rfl⟩
  | cons kv rest ih =>
    obtain ⟨k0, ov⟩ := kv
    intro e hnodup hpres
    simp only [List.map_cons, List.nodup_cons] at hnodup
    cases ov with
    | none =>
      have hsome : (e.lookup k0).isSome = true := hpres k0 (List.mem_cons_self _ _)
      have hany : e.any (fun kv => kv.1 == k0) = true := by
        rw [any_key_eq_lookup_isSome]
        exact hsome
      have hdel : env_del e k0 = some (e.filter fun kv => kv.1 ≠ k0) := by
        unfold env_del
        rw [if_pos hany]
      have hrest := ih (e.filter fun kv => kv.1 ≠ k0) hnodup.2 (by
        intro k hk
        have hkk : k ≠ k0 := by
          intro he
          subst he
          exact hnodup.1 (List.mem_map_of_mem Prod.fst hk)
        rw [lookup_filter_ne_other k0 k hkk]
        exact hpres k (List.mem_cons_of_mem _ hk))
      simp only [restore_env, hdel]
      refine ⟨hrest.1, fun k => ?_⟩
      by_cases hkk : k = k0
      · subst hkk
        have h1 : rest.lookup k = none :=
          lookup_eq_none_of_not_mem_keys k rest (by
            intro hmem
            exact hnodup.1 hmem)
        rw [hrest.2 k, h1, lookup_filter_ne_self]
        simp
      · have h2 : (((k0, (none : Option String)) :: rest).lookup k) = rest.lookup k := by
          simp only [List.lookup_cons, beq_eq_false_iff_ne.mpr hkk]
        rw [hrest.2 k, h2]
        cases hr : rest.lookup k with
        | none => exact lookup_filter_ne_other k0 k hkk e
        | some ow => cases ow <;> rfl
    | some v =>
      have hrest := ih (env_set e k0 v) hnodup.2 (by
        intro k hk
        have hkk : k ≠ k0 := by
          intro he
          subst he
          exact hnodup.1 (List.mem_map_of_mem Prod.fst hk)
        rw [env_set_lookup_other e k0 v k hkk]
        exact hpres k (List.mem_cons_of_mem _ hk))
      simp only [restore_env]
      refine ⟨hrest.1, fun k => ?_⟩
      by_cases hkk : k = k0
      · subst hkk
        have h1 : rest.lookup k = none :=
          lookup_eq_none_of_not_mem_keys k rest (by
            intro hmem
            exact hnodup.1 hmem)
        rw [hrest.2 k, h1, env_set_lookup_self]
        simp
      · have h2 : (((k0, some v) :: rest).lookup k) = rest.lookup k := by
          simp only [List.lookup_cons, beq_eq_false_iff_ne.mpr hkk]
        rw [hrest.2 k, h2]
        cases hr : rest.lookup k with
        | none => exact env_set_lookup_other e k0 v k hkk
        | some ow => cases ow <;> rfl

/-- C9 counterexample: with named variables A (previously unset) and B
(previously `old`), and a body that completes normally after deleting A, the
restoration loop raises a KeyError at A and never restores B: after exit B
still holds the body-installed value `2`, not its pre-entry value `old`, and
an exception propagates even though the body completed normally.  So the
claim fails for bodies that delete a previously-unset named variable. -/
theorem claim_C9_counterexample :
    (environ [("A", "1"), ("B", "2")]
        (fun e => (e.filter fun kv => !(kv.1 == "A"), false))
        [("B", "old")]).1.lookup "B" = some "2" ∧
    (([("B", "old")] : EnvMap).lookup "B") = some "old" ∧
    (environ [("A", "1"), ("B", "2")]
        (fun e => (e.filter fun kv => !(kv.1 == "A"), false))
        [("B", "old")]).2 = true := by
  decide

/-- C9 amended: provided the named variables are distinct and the body does
not delete any named variable that was previously unset, the `environ`
context manager restores, on every exit path (the raised flag of the result
is exactly the body raised flag, so restoration itself raises nothing), each
environment variable named in its argument to the value it had before entry
-- deleting variables that were previously unset -- and leaves all other
environment variables exactly as the body left them; and the `change_cwd`
context manager restores the original working directory on every exit
path, unconditionally. -/
theorem claim_C9_amended (env : List (String × String))
    (body : EnvMap → EnvMap × Bool) (e0 : EnvMap)
    (hnodup : (env.map Prod.fst).Nodup)
    (hkeep : ∀ k, k ∈ env.map Prod.fst → e0.lookup k = none →
      (((body (env_update e0 env)).1.lookup k).isSome) = true) :
    (∀ k, k ∈ env.map Prod.fst → (environ env body e0).1.lookup k = e0.lookup k) ∧
    (∀ k, k ∉ env.map Prod.fst →
      (environ env body e0).1.lookup k = (body (env_update e0 env)).1.lookup k) ∧
    ((environ env body e0).2 = (body (env_update e0 env)).2) ∧
    (∀ dir_path bodyc cwd0, (change_cwd dir_path bodyc cwd0).1 = cwd0) := by
  have hkeys : ((env.map fun kv => (kv.1, (e0 : List (String × String)).lookup kv.1)).map
      Prod.fst) = env.map Prod.fst := by
    rw [List.map_map]
    rfl
  have hspec := restore_env_spec
    (env.map fun kv => (kv.1, (e0 : List (String × String)).lookup kv.1))
    (body (env_update e0 env)).1
    (by rw [hkeys]; exact hnodup)
    (by
      intro k hk
      obtain ⟨kv, hkv, heq⟩ := List.mem_map.mp hk
      have h1 : kv.1 = k := congrArg Prod.fst heq
      have h2 : List.lookup kv.1 e0 = none := congrArg Prod.snd heq
      rw [h1] at h2
      exact hkeep k (h1 ▸ List.mem_map_of_mem Prod.fst hkv) h2)
  refine ⟨fun k hk => ?_, fun k hk => ?_, ?_, fun d bc c => rfl⟩
  · show (restore_env _ (body (env_update e0 env)).1).1.lookup k = e0.lookup k
    obtain ⟨kv, hkv, hfst⟩ := List.mem_map.mp hk
    have hmem : ((k, (e0 : List (String × String)).lookup k)) ∈
        (env.map fun kv => (kv.1, (e0 : List (String × String)).lookup kv.1)) := by
      have hmm := List.mem_map_of_mem
        (fun kv => (kv.1, (e0 : List (String × String)).lookup kv.1)) hkv
      dsimp only at hmm
      rw [hfst] at hmm
      exact hmm
    have hl : ((env.map fun kv => (kv.1, (e0 : List (String × String)).lookup kv.1)).lookup k)
        = some ((e0 : List (String × String)).lookup k) :=
      lookup_of_mem_nodup k _ _ (by rw [hkeys]; exact hnodup) hmem
    rw [hspec.2 k, hl]
    cases e0.lookup k <;> rfl
  · show (restore_env _ (body (env_update e0 env)).1).1.lookup k
      = (body (env_update e0 env)).1.lookup k
    have hl : ((env.map fun kv => (kv.1, (e0 : List (String × String)).lookup kv.1)).lookup k)
        = none :=
      lookup_eq_none_of_not_mem_keys k _ (by rw [hkeys]; exact hk)
    rw [hspec.2 k, hl]
  · show ((body (env_update e0 env)).2
        || (restore_env _ (body (env_update e0 env)).1).2) = _
    rw [hspec.1]
    simp

/-- C9 amended, witness: the amended theorem applied to a concrete single
named variable A, previously unset, with an identity body: after exit A is
unset again. -/
theorem claim_C9_amended_witness :
    (environ [("A", "1")] (fun e => (e, false)) ([] : EnvMap)).1.lookup "A"
      = none := by
  have h := (claim_C9_amended [("A", "1")] (fun e => (e, false)) []
    (by decide)
    (by
      intro k hk hn
      simp only [List.map_cons, List.map_nil, List.mem_singleton] at hk
      subst hk
      decide)).1 "A" (by decide)
  rw [h]
  rfl
